import Mathlib

/-!
Verification of the SMS-Fix cleaning pipeline (src/app.py).

A cell of the table is `Option String`: `none` models a pandas NaN, `some s`
a string value.  A data frame is a header (list of column names) together
with a list of rows, each row a list of cells aligned with the header.
The per-cell functions (`clean_mobile`, `extract_email`, the NHS-number
regex test) are translated from src/app.py, including Python semantics of
`str.strip`, `str(nan) = "nan"`, pandas elementwise comparisons where NaN
compares unequal to everything, and the regex anchor `$`, which also
matches just before one trailing newline.
-/

abbrev Cell := Option String

structure DF where
  cols : List String
  rows : List (List Cell)
deriving DecidableEq

/-- Index of the first occurrence of a column name in a header. -/
def colIdx : List String → String → Option Nat
  | [], _ => none
  | c :: cs, name => if c = name then some 0 else (colIdx cs name).map (· + 1)

/-- Value of the named column in one row (`none` when the column is absent). -/
def cellGet (cols : List String) (r : List Cell) (name : String) : Cell :=
  match colIdx cols name with
  | some i => r.getD i none
  | none => none

def colVals (df : DF) (name : String) : List Cell :=
  df.rows.map (fun r => cellGet df.cols r name)

/-- `df[name] = df[name].apply f` -/
def mapCol (df : DF) (name : String) (f : Cell → Cell) : DF :=
  match colIdx df.cols name with
  | some i => ⟨df.cols, df.rows.map (fun r => r.set i (f (r.getD i none)))⟩
  | none => df

/-- `df[names]`: keep the named columns, in the given order. -/
def project (df : DF) (names : List String) : DF :=
  ⟨names, df.rows.map (fun r => names.map (fun n => cellGet df.cols r n))⟩

/-- One row of `mapCol`: rewrite the cell at column index `i` through `f`. -/
def setColRow (i : Nat) (f : Cell → Cell) (r : List Cell) : List Cell :=
  r.set i (f (r.getD i none))

/-- ASCII whitespace stripped by Python `str.strip()`. -/
def isPySpace (c : Char) : Bool :=
  c == ' ' || c == '\t' || c == '\n' || c == '\r' || c == '\x0b' || c == '\x0c'

/-- Python `str.strip()` (over the ASCII fragment). -/
def pyStrip (s : String) : String :=
  String.mk (((s.data.dropWhile isPySpace).reverse.dropWhile isPySpace).reverse)

/-- Python `str(x)` applied to a cell: NaN prints as "nan". -/
def pyStr (c : Cell) : String :=
  match c with
  | none => "nan"
  | some s => s

/-- Python `str.startswith` for a literal pattern. -/
def listStarts : List Char → List Char → Bool
  | [], _ => true
  | _ :: _, [] => false
  | p :: ps, c :: cs => p == c && listStarts ps cs

/-- Consume an exact literal at the front of the text, returning the rest. -/
def consumeLit : List Char → List Char → Option (List Char)
  | [], cs => some cs
  | _ :: _, [] => none
  | p :: ps, c :: cs => if c = p then consumeLit ps cs else none

/-- Consume exactly `n` decimal digits, returning the rest. -/
def consumeDigits : Nat → List Char → Option (List Char)
  | 0, cs => some cs
  | _ + 1, [] => none
  | n + 1, c :: cs => if c.isDigit then consumeDigits n cs else none

/-- Python's `$` anchor (no MULTILINE): end of text or just before a final newline. -/
def dollarEnd (cs : List Char) : Bool :=
  cs.isEmpty || cs == ['\n']

/-- `re.match("^LIT\\d{n}$", s)` for a fixed literal followed by `n` digits. -/
def reMatchFixed (lit : List Char) (n : Nat) (s : String) : Bool :=
  match consumeLit lit s.data with
  | some r1 =>
      match consumeDigits n r1 with
      | some r2 => dollarEnd r2
      | none => false
  | none => false

/-- Rewrite a leading "O7" or "o7" (letter O mistaken for zero) to "07". -/
def fixO7 (s : String) : String :=
  if listStarts ['O', '7'] s.data || listStarts ['o', '7'] s.data then
    String.mk ('0' :: '7' :: s.data.drop 2)
  else s

/-- Prepend "0" when the text starts with "7" and is exactly 10 digits. -/
def prepend0 (s : String) : String :=
  if listStarts ['7'] s.data && s.data.length == 10 && s.data.all Char.isDigit then
    String.mk ('0' :: s.data)
  else s

/-- `re.sub(r"[ \-\(\)]", "", s)`: remove spaces, dashes, parentheses. -/
def stripPunct (s : String) : String :=
  String.mk (s.data.filter (fun c => !(c == ' ' || c == '-' || c == '(' || c == ')')))

/-- The normalization steps of `clean_mobile` before the final regex tests. -/
def mobileProcess (m : String) : String :=
  stripPunct (prepend0 (fixO7 (pyStrip m)))

/-- `clean_mobile` from src/app.py. -/
def clean_mobile (c : Cell) : Cell :=
  match c with
  | none => none
  | some m =>
      let s := mobileProcess m
      if reMatchFixed ['0', '7'] 9 s then some s
      else if reMatchFixed ['+', '4', '4', '7'] 9 s then some s
      else none

/-- `extract_email` from src/app.py (the cell is coerced with `str` first). -/
def extract_email (c : Cell) : String :=
  let s := pyStrip (pyStr c)
  if s.data.contains ' ' then String.mk (s.data.takeWhile (fun ch => !(ch == ' ')))
  else s

/-- The email column step: `apply(extract_email)` followed by
`replace(["", "nan", "NaN", "None"], nan)`. -/
def emailNorm (c : Cell) : Cell :=
  let s := extract_email c
  if s = "" ∨ s = "nan" ∨ s = "NaN" ∨ s = "None" then none else some s

/-- One cell of `df["NHS number"].astype(str).str.match("^\\d{10}$")`. -/
def isValidNhsNumber (c : Cell) : Bool :=
  reMatchFixed [] 10 (pyStr c)

/-- pandas elementwise `!=` (NaN compares unequal to everything, itself included). -/
def pdNe (a b : Cell) : Bool :=
  match a, b with
  | some x, some y => decide (x ≠ y)
  | _, _ => true

/-- pandas `!= ""` against the scalar empty string. -/
def pdNeEmpty (c : Cell) : Bool :=
  match c with
  | none => true
  | some s => decide (s ≠ "")

/-- pandas `== ""` against the scalar empty string. -/
def pdEqEmpty (c : Cell) : Bool :=
  match c with
  | none => false
  | some s => decide (s = "")

/-- `isna() | (astype(str).str.strip() == "")` for one cell. -/
def cellMissing (c : Cell) : Bool :=
  c.isNone || decide (pyStrip (pyStr c) = "")

inductive DiagKind where
  | MobileCorrected
  | MobileBlanked
  | EmailBlanked
  | NhsInvalid
  | BothMissing
deriving DecidableEq

/-- One toast message: its kind plus the data the message actually carries. -/
structure Diag where
  kind : DiagKind
  count : Option Nat
  indices : Option (List Nat)
deriving DecidableEq

def required_cols : List String :=
  ["NHS number", "Preferred telephone number", "Date of birth", "First name",
   "Email address"]

def missingOf (df : DF) : List String :=
  required_cols.filter (fun c => !(df.cols.contains c))

def schemaOk (df : DF) : Bool :=
  (missingOf df).isEmpty

def mobileStage (df : DF) : DF :=
  mapCol df "Preferred telephone number" clean_mobile

def emailStage (df : DF) : DF :=
  mapCol df "Email address" emailNorm

def normTable (df : DF) : DF :=
  emailStage (mobileStage df)

/-- `(original_mobiles != df[col]) & (df[col] != "")`, elementwise. -/
def correctedMask (df : DF) : List Bool :=
  ((colVals df "Preferred telephone number").zip
      (colVals (mobileStage df) "Preferred telephone number")).map
    (fun p => pdNe p.1 p.2 && pdNeEmpty p.2)

/-- `df[col] == ""` after `clean_mobile`, elementwise. -/
def blankedMask (df : DF) : List Bool :=
  (colVals (mobileStage df) "Preferred telephone number").map pdEqEmpty

/-- `df["Email address"].isna()` after the email normalization, elementwise. -/
def emailBlankMask (df : DF) : List Bool :=
  (colVals (normTable df) "Email address").map Option.isNone

/-- `index.tolist()` restricted by a boolean mask. -/
def trueIdxs (m : List Bool) : List Nat :=
  (List.range m.length).filter (fun i => m.getD i false)

def nhsValidRow (cols : List String) (r : List Cell) : Bool :=
  isValidNhsNumber (cellGet cols r "NHS number")

/-- `(~nhs_valid).sum()` -/
def nhsInvalidCount (df : DF) : Nat :=
  (((normTable df).rows).filter (fun r => !(nhsValidRow (normTable df).cols r))).length

/-- `df = df[nhs_valid].reset_index(drop=True)` -/
def afterNhs (df : DF) : DF :=
  ⟨(normTable df).cols,
   ((normTable df).rows).filter (fun r => nhsValidRow (normTable df).cols r)⟩

def bothMissingRow (cols : List String) (r : List Cell) : Bool :=
  cellMissing (cellGet cols r "Preferred telephone number") &&
    cellMissing (cellGet cols r "Email address")

/-- `both_missing.sum()` -/
def bothMissingCount (df : DF) : Nat :=
  (((afterNhs df).rows).filter (fun r => bothMissingRow (afterNhs df).cols r)).length

/-- `df = df[~both_missing].reset_index(drop=True)` -/
def afterBoth (df : DF) : DF :=
  ⟨(afterNhs df).cols,
   ((afterNhs df).rows).filter (fun r => !(bothMissingRow (afterNhs df).cols r))⟩

/-- The toast messages, in emission order, with the data each one carries. -/
def diagsOf (df : DF) : List Diag :=
  (if (correctedMask df).any id then
    [⟨DiagKind.MobileCorrected, none, some (trueIdxs (correctedMask df))⟩] else []) ++
  (if (blankedMask df).any id then
    [⟨DiagKind.MobileBlanked, none, some (trueIdxs (blankedMask df))⟩] else []) ++
  (if (emailBlankMask df).any id then
    [⟨DiagKind.EmailBlanked, none, some (trueIdxs (emailBlankMask df))⟩] else []) ++
  (if 0 < nhsInvalidCount df then
    [⟨DiagKind.NhsInvalid, some (nhsInvalidCount df), none⟩] else []) ++
  (if 0 < bothMissingCount df then
    [⟨DiagKind.BothMissing, some (bothMissingCount df), none⟩] else [])

structure Report where
  cleaned : DF
  diags : List Diag
  originalCount : Nat
  finalCount : Nat
deriving DecidableEq

def reportOf (df : DF) : Report :=
  ⟨project (afterBoth df) required_cols, diagsOf df, df.rows.length,
   (afterBoth df).rows.length⟩

/-- The whole pipeline: the schema check, then the row-level stages. -/
def run (df : DF) : Except (List String) Report :=
  if schemaOk df then Except.ok (reportOf df) else Except.error (missingOf df)

/-- Claim C6's stated predicate: exactly 10 characters, all decimal digits. -/
def specNhsText (s : String) : Bool :=
  s.data.length == 10 && s.data.all Char.isDigit

/-- Claim C2's stated accepted shapes: exactly "07" plus 9 digits,
or exactly "+447" plus 9 digits. -/
def specExactShape (s : String) : Bool :=
  match s.data with
  | '0' :: '7' :: rest => rest.length == 9 && rest.all Char.isDigit
  | '+' :: '4' :: '4' :: '7' :: rest => rest.length == 9 && rest.all Char.isDigit
  | _ => false

/-- Amended C2 shape: the stated shapes, optionally followed by one trailing
newline (Python's `$` also matches just before a final newline). -/
def amendedShape (t : String) : Prop :=
  ∃ ds rest,
    (t.data = ['0', '7'] ++ ds ++ rest ∨ t.data = ['+', '4', '4', '7'] ++ ds ++ rest) ∧
    ds.length = 9 ∧ ds.all Char.isDigit = true ∧ (rest = [] ∨ rest = ['\n'])

/-- Amended C6 shape: 10 digits, optionally followed by one trailing newline. -/
def amendedNhsShape (s : String) : Prop :=
  ∃ ds rest, s.data = ds ++ rest ∧ ds.length = 10 ∧ ds.all Char.isDigit = true ∧
    (rest = [] ∨ rest = ['\n'])

/-- Claim C7's normalizeEmail, modelled from the claim's words: the token before
the first whitespace character, with "", "nan", "NaN" and "None" treated as absent. -/
def specEmailValue (c : Cell) : Cell :=
  let s := pyStrip (pyStr c)
  let t := String.mk (s.data.takeWhile (fun ch => !(isPySpace ch)))
  if t = "" ∨ t = "nan" ∨ t = "NaN" ∨ t = "None" then none else some t

/-- Amended C7 normalizeEmail: the token before the first space (U+0020). -/
def amendedEmail (c : Cell) : Cell :=
  let s := pyStrip (pyStr c)
  let t := String.mk (s.data.takeWhile (fun ch => !(ch == ' ')))
  if t = "" ∨ t = "nan" ∨ t = "NaN" ∨ t = "None" then none else some t

/-- The spec's end-to-end example table. -/
def wdf1 : DF :=
  ⟨required_cols,
   [[some "1234567890", some "O7123456789", some "01/01/1990", some "Ann", some "a@b.com x"],
    [some "bad", some "07123456789", some "02/02/1990", some "Bob", some "c@d.com"],
    [some "1234567891", none, some "03/03/1990", some "Cat", none]]⟩

/-- A table missing four of the five required columns. -/
def wdf3 : DF :=
  ⟨["NHS number", "Extra"], []⟩

/-- One row whose non-empty mobile value "123" is invalid, hence blanked. -/
def wdf4 : DF :=
  ⟨required_cols,
   [[some "1234567890", some "123", some "01/01/1990", some "Ann", some "a@b.com"]]⟩

/-- One row whose mobile value is absent before and after normalization. -/
def wdf5 : DF :=
  ⟨required_cols,
   [[some "1234567890", none, some "01/01/1990", some "Ann", some "a@b.com"]]⟩

/-- One row with an absent email address. -/
def wdf7 : DF :=
  ⟨required_cols,
   [[some "1234567890", some "07123456789", some "01/01/1990", some "Ann", none]]⟩

/-- Extra column, scrambled column order. -/
def wdf8 : DF :=
  ⟨["Extra", "Email address", "First name", "NHS number", "Date of birth",
    "Preferred telephone number"],
   [[some "x", some "a@b.com", some "Ann", some "1234567890", some "01/01/1990",
     some "07123456789"]]⟩

/-- One clean row and one row with an invalid NHS number. -/
def wdf9 : DF :=
  ⟨required_cols,
   [[some "1234567890", some "07123456789", some "01/01/1990", some "Ann", some "a@b.com"],
    [some "123", some "07123456789", some "02/02/1990", some "Bob", some "c@d.com"]]⟩

/-- One row whose email cell contains a tab but no space. -/
def wdfc7 : DF :=
  ⟨required_cols,
   [[some "1234567890", some "07123456789", some "01/01/1990", some "Ann",
     some "nan\tx"]]⟩

/-- A schema-passing table with an extra leading column. -/
def wdf10 : DF :=
  ⟨"Zed" :: required_cols,
   [[some "z", some "1234567890", some "07123456789", some "01/01/1990", some "Ann",
     some "a@b.com"]]⟩

theorem filterLenPartition {α : Type} (l : List α) (p : α → Bool) :
    (l.filter p).length + (l.filter (fun a => !(p a))).length = l.length := by
  induction l with
  | nil => simp
  | cons a as ih =>
      cases h : p a <;> simp [List.filter_cons, h] <;> omega

theorem mapFilterComm {α β : Type} (l : List α) (f : α → β) (p : β → Bool) :
    (l.map f).filter p = (l.filter (fun a => p (f a))).map f := by
  induction l with
  | nil => rfl
  | cons a as ih =>
      cases h : p (f a) <;> simp [List.filter_cons, h, ih]

theorem filterFilter {α : Type} (l : List α) (p q : α → Bool) :
    (l.filter p).filter q = l.filter (fun a => p a && q a) := by
  induction l with
  | nil => rfl
  | cons a as ih =>
      cases hp : p a <;> cases hq : q a <;> simp [List.filter_cons, hp, hq, ih]

theorem getDSetSelf {α : Type} :
    ∀ (l : List α) (i : Nat) (v d : α),
      (l.set i v).getD i d = if i < l.length then v else d := by
  intro l
  induction l with
  | nil => intro i v d; simp
  | cons a as ih =>
      intro i v d
      cases i with
      | zero => simp
      | succ n => simpa using ih n v d

theorem getDSetNe {α : Type} :
    ∀ (l : List α) (i j : Nat) (v d : α), i ≠ j →
      (l.set i v).getD j d = l.getD j d := by
  intro l
  induction l with
  | nil => intro i j v d _; simp
  | cons a as ih =>
      intro i j v d hne
      cases i with
      | zero =>
          cases j with
          | zero => exact absurd rfl hne
          | succ m => simp
      | succ n =>
          cases j with
          | zero => simp
          | succ m => simpa using ih n m v d (by omega)

theorem colIdxGetD :
    ∀ (cols : List String) (name : String) (i : Nat),
      colIdx cols name = some i → cols.getD i "" = name := by
  intro cols
  induction cols with
  | nil => intro name i h; simp [colIdx] at h
  | cons c cs ih =>
      intro name i h
      by_cases hc : c = name
      · simp [colIdx, hc] at h
        simp [← h, hc]
      · simp [colIdx, hc] at h
        obtain ⟨j, hj, rfl⟩ := h
        simpa using ih name j hj

theorem colIdxNe (cols : List String) (n1 n2 : String) (i j : Nat)
    (hne : n1 ≠ n2) (h1 : colIdx cols n1 = some i) (h2 : colIdx cols n2 = some j) :
    i ≠ j := by
  intro hij
  subst hij
  exact hne ((colIdxGetD cols n1 i h1).symm.trans (colIdxGetD cols n2 i h2))

theorem containsColIdx :
    ∀ (cols : List String) (name : String), cols.contains name = true →
      ∃ i, colIdx cols name = some i := by
  intro cols
  induction cols with
  | nil => intro name h; simp at h
  | cons c cs ih =>
      intro name h
      by_cases hc : c = name
      · exact ⟨0, by simp [colIdx, hc]⟩
      · have hcs : cs.contains name = true := by
          simp [List.contains_cons] at h
          rcases h with h | h
          · exact absurd h.symm hc
          · simpa using h
        obtain ⟨j, hj⟩ := ih name hcs
        exact ⟨j + 1, by simp [colIdx, hc, hj]⟩

theorem cellGetSetSelf (cols : List String) (name : String) (i : Nat)
    (hi : colIdx cols name = some i) (r : List Cell) (f : Cell → Cell)
    (hf : f none = none) :
    cellGet cols (r.set i (f (r.getD i none))) name = f (cellGet cols r name) := by
  simp only [cellGet, hi]
  rw [getDSetSelf]
  by_cases hlen : i < r.length
  · simp [hlen]
  · simp only [hlen, if_false]
    rw [List.getD_eq_default _ _ (Nat.le_of_not_lt hlen), hf]

theorem cellGetSetOther (cols : List String) (name other : String) (hne : name ≠ other)
    (i : Nat) (hi : colIdx cols other = some i) (r : List Cell) (v : Cell) :
    cellGet cols (r.set i v) name = cellGet cols r name := by
  simp only [cellGet]
  cases hj : colIdx cols name with
  | none => rfl
  | some j =>
      exact getDSetNe r i j v none (colIdxNe cols other name i j (Ne.symm hne) hi hj)

theorem mapColCols (df : DF) (name : String) (f : Cell → Cell) :
    (mapCol df name f).cols = df.cols := by
  cases h : colIdx df.cols name <;> simp [mapCol, h]

theorem mapColLen (df : DF) (name : String) (f : Cell → Cell) :
    (mapCol df name f).rows.length = df.rows.length := by
  cases h : colIdx df.cols name <;> simp [mapCol, h]

theorem normTableCols (df : DF) : (normTable df).cols = df.cols := by
  simp [normTable, emailStage, mobileStage, mapColCols]

theorem normTableLen (df : DF) : (normTable df).rows.length = df.rows.length := by
  simp [normTable, emailStage, mobileStage, mapColLen]

theorem consumeLitAppend : ∀ (p r : List Char), consumeLit p (p ++ r) = some r := by
  intro p
  induction p with
  | nil => intro r; rfl
  | cons a as ih => intro r; simp [consumeLit, ih]

theorem consumeLitSome : ∀ (p cs r : List Char), consumeLit p cs = some r → cs = p ++ r := by
  intro p
  induction p with
  | nil =>
      intro cs r h
      simp [consumeLit] at h
      simp [h]
  | cons a as ih =>
      intro cs r h
      cases cs with
      | nil => simp [consumeLit] at h
      | cons c cs' =>
          simp only [consumeLit] at h
          split at h
          · next hca => simp [hca, ih cs' r h]
          · exact absurd h (by simp)

theorem consumeDigitsAppend : ∀ (ds rest : List Char), ds.all Char.isDigit = true →
    consumeDigits ds.length (ds ++ rest) = some rest := by
  intro ds
  induction ds with
  | nil => intro rest _; rfl
  | cons d ds' ih =>
      intro rest hall
      simp only [List.all_cons, Bool.and_eq_true] at hall
      simp [consumeDigits, hall.1, ih rest hall.2]

theorem consumeDigitsSome : ∀ (n : Nat) (cs r : List Char), consumeDigits n cs = some r →
    ∃ ds, cs = ds ++ r ∧ ds.length = n ∧ ds.all Char.isDigit = true := by
  intro n
  induction n with
  | zero =>
      intro cs r h
      simp [consumeDigits] at h
      exact ⟨[], by simp [h]⟩
  | succ m ih =>
      intro cs r h
      cases cs with
      | nil => simp [consumeDigits] at h
      | cons c cs' =>
          simp only [consumeDigits] at h
          by_cases hd : c.isDigit = true
          · rw [if_pos hd] at h
            obtain ⟨ds, h1, h2, h3⟩ := ih cs' r h
            exact ⟨c :: ds, by simp [h1], by simp [h2], by simp [hd, h3]⟩
          · rw [if_neg hd] at h
            exact absurd h (by simp)

theorem reMatchIff (lit : List Char) (n : Nat) (s : String) :
    reMatchFixed lit n s = true ↔
      ∃ ds rest, s.data = lit ++ ds ++ rest ∧ ds.length = n ∧
        ds.all Char.isDigit = true ∧ (rest = [] ∨ rest = ['\n']) := by
  constructor
  · intro h
    unfold reMatchFixed at h
    split at h
    · rename_i r1 h1
      split at h
      · rename_i r2 h2
        have hr1 : s.data = lit ++ r1 := consumeLitSome lit s.data r1 h1
        obtain ⟨ds, hds, hlen, hdig⟩ := consumeDigitsSome n r1 r2 h2
        refine ⟨ds, r2, by rw [hr1, hds, List.append_assoc], hlen, hdig, ?_⟩
        simpa [dollarEnd, List.isEmpty_iff] using h
      · exact absurd h (by simp)
    · exact absurd h (by simp)
  · rintro ⟨ds, rest, hdata, hlen, hdig, hor⟩
    have h1 : consumeLit lit s.data = some (ds ++ rest) := by
      rw [hdata, List.append_assoc]
      exact consumeLitAppend lit (ds ++ rest)
    have h2 : consumeDigits n (ds ++ rest) = some rest := by
      rw [← hlen]
      exact consumeDigitsAppend ds rest hdig
    have h3 : dollarEnd rest = true := by
      rcases hor with rfl | rfl <;> rfl
    unfold reMatchFixed
    simp only [h1, h2, h3]

theorem takeWhileAll {α : Type} (l : List α) (p : α → Bool) (h : ∀ a ∈ l, p a = true) :
    l.takeWhile p = l := by
  induction l with
  | nil => rfl
  | cons a as ih =>
      simp [List.takeWhile_cons, h a (by simp), ih (fun b hb => h b (by simp [hb]))]

theorem containsOfMem {α : Type} [BEq α] [LawfulBEq α] :
    ∀ (l : List α) (a : α), a ∈ l → l.contains a = true := by
  intro l a h
  simpa [List.contains, List.elem_iff] using h

theorem memIfSingletonP {α : Type} {p : Prop} [Decidable p] {x d : α} :
    d ∈ (if p then [x] else []) ↔ (p ∧ d = x) := by
  by_cases hp : p <;> simp [hp]

theorem getDMapIsNone (col : List Cell) :
    ∀ i : Nat, i < col.length →
      (col.map Option.isNone).getD i false = Option.isNone (col.getD i (some "")) := by
  induction col with
  | nil => intro i h; simp at h
  | cons c cs ih =>
      intro i h
      cases i with
      | zero => simp
      | succ n => simpa using ih n (by simpa using h)

/-- Claim C1: for every input table that passes the schema check, final row
count ≤ rows remaining after the NHS filter ≤ original row count, and every
dropped row is accounted for by exactly one of NhsInvalid or BothMissing
(the both-missing filter runs only over the rows surviving the NHS filter). -/
theorem c1_row_count_law (df : DF) (h : schemaOk df = true) :
    run df = Except.ok (reportOf df) ∧
    (reportOf df).originalCount = df.rows.length ∧
    (reportOf df).finalCount ≤ (afterNhs df).rows.length ∧
    (afterNhs df).rows.length ≤ df.rows.length ∧
    nhsInvalidCount df + bothMissingCount df + (reportOf df).finalCount
      = df.rows.length := by
  have e1 : (afterNhs df).rows.length + nhsInvalidCount df = df.rows.length := by
    have hp := filterLenPartition (normTable df).rows
      (fun r => nhsValidRow (normTable df).cols r)
    simpa [afterNhs, nhsInvalidCount, normTableLen df] using hp
  have e2 : (afterBoth df).rows.length + bothMissingCount df
      = (afterNhs df).rows.length := by
    have hp := filterLenPartition (afterNhs df).rows
      (fun r => bothMissingRow (afterNhs df).cols r)
    simp only [afterBoth, bothMissingCount] at *
    omega
  have hfin : (reportOf df).finalCount = (afterBoth df).rows.length := rfl
  refine ⟨by simp [run, h], rfl, ?_, ?_, ?_⟩
  · rw [hfin]
    exact List.length_filter_le _ _
  · omega
  · omega

theorem c1_row_count_law_witness :
    schemaOk wdf1 = true ∧
    run wdf1 = Except.ok (reportOf wdf1) ∧
    nhsInvalidCount wdf1 + bothMissingCount wdf1 + (reportOf wdf1).finalCount
      = wdf1.rows.length :=
  ⟨rfl, (c1_row_count_law wdf1 rfl).1, (c1_row_count_law wdf1 rfl).2.2.2.2⟩

/-- Claim C3: for every input table missing at least one required column, the
pipeline fails with a MissingColumns error naming exactly the missing columns
and produces no Report. -/
theorem c3_missing_columns (df : DF)
    (h : ∃ c, c ∈ required_cols ∧ df.cols.contains c = false) :
    run df = Except.error (missingOf df) ∧
    (∀ c, c ∈ missingOf df ↔ (c ∈ required_cols ∧ df.cols.contains c = false)) ∧
    missingOf df ≠ [] := by
  obtain ⟨c0, hc0r, hc0⟩ := h
  have hnm : c0 ∉ df.cols := by
    intro hm
    rw [containsOfMem df.cols c0 hm] at hc0
    exact Bool.noConfusion hc0
  have hmem : c0 ∈ missingOf df := by
    simp [missingOf, List.mem_filter, hc0r, hnm]
  have hne : missingOf df ≠ [] := by
    intro he
    rw [he] at hmem
    exact (List.not_mem_nil c0) hmem
  refine ⟨?_, ?_, hne⟩
  · have hs : schemaOk df = false := by
      cases hmo : missingOf df with
      | nil => exact absurd hmo hne
      | cons a as => simp [schemaOk, hmo]
    simp [run, hs]
  · intro c
    simp [missingOf, List.mem_filter]

theorem c3_missing_columns_witness :
    run wdf3 = Except.error
      ["Preferred telephone number", "Date of birth", "First name", "Email address"] := by
  have h := (c3_missing_columns wdf3 ⟨"First name", by decide, by decide⟩).1
  rw [h]
  have he : missingOf wdf3
      = ["Preferred telephone number", "Date of birth", "First name", "Email address"] := by
    decide
  rw [he]

/-- Claim C8: for every input table that passes the schema check, the cleaned
output table has exactly the five required columns in the fixed order,
regardless of the input's extra columns or column order. -/
theorem c8_projection (df : DF) (rep : Report) (h : run df = Except.ok rep) :
    rep.cleaned.cols = required_cols := by
  by_cases hs : schemaOk df = true
  · simp only [run, hs, if_true] at h
    obtain rfl : reportOf df = rep := by injection h
    rfl
  · simp [run, hs] at h

theorem c8_projection_witness :
    (reportOf wdf8).cleaned.cols = required_cols :=
  c8_projection wdf8 (reportOf wdf8) rfl

/-- Claim C2, counterexample: for the raw value "07123456789\n)" the processed
text is "07123456789\n", which does not match either of the claim's two exact
shapes, yet `clean_mobile` accepts it and returns it (Python's `$` anchor
also matches just before a final newline). -/
theorem c2_counterexample :
    mobileProcess "07123456789\n)" = "07123456789\n" ∧
    specExactShape "07123456789\n" = false ∧
    clean_mobile (some "07123456789\n)") = some "07123456789\n" := by
  refine ⟨by decide, by decide, by decide⟩

/-- Claim C2 as amended: `clean_mobile` returns a non-empty accepted value iff
the processed text (trim, O7/o7 fix, missing-leading-zero fix, punctuation
strip) matches "07" plus 9 digits or "+447" plus 9 digits, in each case
optionally followed by one trailing newline; the claim's four concrete
examples hold unchanged. -/
theorem c2_amended :
    (∀ c : Cell,
      (∃ v, clean_mobile c = some v ∧ v ≠ "") ↔
        ∃ s, c = some s ∧ amendedShape (mobileProcess s)) ∧
    clean_mobile (some "O7123456789") = some "07123456789" ∧
    clean_mobile (some "7123456789") = some "07123456789" ∧
    clean_mobile (some "+44 7123 456789") = some "+447123456789" ∧
    clean_mobile (some "123") = none := by
  refine ⟨?_, by decide, by decide, by decide, by decide⟩
  intro c
  cases c with
  | none => simp [clean_mobile]
  | some m =>
      have hsome : ∀ b : Bool,
          (reMatchFixed ['0', '7'] 9 (mobileProcess m) = true ∨
           reMatchFixed ['+', '4', '4', '7'] 9 (mobileProcess m) = true) →
          clean_mobile (some m) = some (mobileProcess m) := by
        intro _ hmatch
        by_cases h07 : reMatchFixed ['0', '7'] 9 (mobileProcess m) = true
        · simp [clean_mobile, h07]
        · rcases hmatch with h | h447
          · exact absurd h h07
          · simp [clean_mobile, h07, h447]
      constructor
      · rintro ⟨v, hv, -⟩
        refine ⟨m, rfl, ?_⟩
        by_cases h07 : reMatchFixed ['0', '7'] 9 (mobileProcess m) = true
        · obtain ⟨ds, rest, hd, hl, hdig, hor⟩ := (reMatchIff _ _ _).mp h07
          exact ⟨ds, rest, Or.inl hd, hl, hdig, hor⟩
        · by_cases h447 : reMatchFixed ['+', '4', '4', '7'] 9 (mobileProcess m) = true
          · obtain ⟨ds, rest, hd, hl, hdig, hor⟩ := (reMatchIff _ _ _).mp h447
            exact ⟨ds, rest, Or.inr hd, hl, hdig, hor⟩
          · simp [clean_mobile, h07, h447] at hv
      · rintro ⟨s, hs, ds, rest, hd, hl, hdig, hor⟩
        obtain rfl : m = s := by injection hs
        have hmatch : reMatchFixed ['0', '7'] 9 (mobileProcess m) = true ∨
            reMatchFixed ['+', '4', '4', '7'] 9 (mobileProcess m) = true := by
          rcases hd with hd | hd
          · exact Or.inl ((reMatchIff _ _ _).mpr ⟨ds, rest, hd, hl, hdig, hor⟩)
          · exact Or.inr ((reMatchIff _ _ _).mpr ⟨ds, rest, hd, hl, hdig, hor⟩)
        refine ⟨mobileProcess m, hsome true hmatch, ?_⟩
        intro hE
        have hdat : (mobileProcess m).data = [] := by
          rw [hE]
        rcases hd with hd | hd <;> rw [hd] at hdat <;> simp at hdat

/-- Claim C6, counterexample: the cell "1234567890\n" is 11 characters, not
all digits, so the claim says invalid, but the code's
`astype(str).str.match("^\\d{10}$")` accepts it because Python's `$` also
matches just before a final newline. -/
theorem c6_counterexample :
    isValidNhsNumber (some "1234567890\n") = true ∧
    specNhsText (pyStr (some "1234567890\n")) = false := by
  refine ⟨by decide, by decide⟩

/-- Claim C6 as amended: `isValidNhsNumber` coerces the cell to its text form
and accepts iff the text is exactly 10 decimal digits, optionally followed by
one trailing newline (an artifact of the regex `$` anchor); the claim's three
concrete examples hold unchanged, and no checksum is verified. -/
theorem c6_amended :
    (∀ c : Cell, isValidNhsNumber c = true ↔ amendedNhsShape (pyStr c)) ∧
    isValidNhsNumber (some "1234567890") = true ∧
    isValidNhsNumber (some "123456789") = false ∧
    isValidNhsNumber (some "12345678901") = false := by
  refine ⟨?_, by decide, by decide, by decide⟩
  intro c
  have h := reMatchIff [] 10 (pyStr c)
  simpa [amendedNhsShape, isValidNhsNumber] using h

/-- Claim C4 evaluated on the code: in `wdf4` the single row's original mobile
value "123" is non-empty and `clean_mobile` blanks it to the absent marker,
yet no MobileBlanked diagnostic is emitted — the blanked mask compares the
new column against the empty string "", while `clean_mobile` produces NaN,
so the mask is always false. -/
theorem c4_mobile_blanked_bug :
    colVals wdf4 "Preferred telephone number" = [some "123"] ∧
    clean_mobile (some "123") = none ∧
    blankedMask wdf4 = [false] ∧
    run wdf4 = Except.ok (reportOf wdf4) ∧
    (reportOf wdf4).diags.filter
      (fun d => decide (d.kind = DiagKind.MobileBlanked)) = [] := by
  refine ⟨by decide, by decide, by decide, rfl, by decide⟩

/-- Claim C5 evaluated on the code: in `wdf5` the single row's mobile value is
absent both before and after normalization (NaN in, NaN out), yet the code
reports it in the MobileCorrected diagnostic, because in pandas NaN != NaN
and NaN != "" are both true. -/
theorem c5_mobile_corrected_bug :
    colVals wdf5 "Preferred telephone number" = [none] ∧
    clean_mobile none = none ∧
    run wdf5 = Except.ok (reportOf wdf5) ∧
    (reportOf wdf5).diags = [⟨DiagKind.MobileCorrected, none, some [0]⟩] := by
  refine ⟨by decide, rfl, rfl, by decide⟩

/-- Claim C9, counterexample: on `wdf9` (one invalid NHS row) the only
diagnostic emitted is the NhsInvalid one, carrying the count but no row
indices — the source toast interpolates only `dropped_count`. -/
theorem c9_counterexample :
    run wdf9 = Except.ok (reportOf wdf9) ∧
    (reportOf wdf9).diags = [⟨DiagKind.NhsInvalid, some 1, none⟩] := by
  refine ⟨rfl, by decide⟩

/-- Claim C9 as amended: for every schema-passing input with at least one
invalid NHS row, the NHS-filter stage emits a NhsInvalid diagnostic carrying
the count of invalid rows; the row indices are not included in it. -/
theorem c9_amended (df : DF) (h1 : schemaOk df = true)
    (h2 : 0 < nhsInvalidCount df) :
    run df = Except.ok (reportOf df) ∧
    (⟨DiagKind.NhsInvalid, some (nhsInvalidCount df), none⟩ : Diag)
      ∈ (reportOf df).diags ∧
    ∀ d ∈ (reportOf df).diags, d.kind = DiagKind.NhsInvalid →
      d.count = some (nhsInvalidCount df) ∧ d.indices = none := by
  refine ⟨by simp [run, h1], ?_, ?_⟩
  · show _ ∈ diagsOf df
    unfold diagsOf
    simp only [List.mem_append, memIfSingletonP]
    exact Or.inl (Or.inr ⟨h2, trivial⟩)
  · intro d hd hk
    replace hd : d ∈ diagsOf df := hd
    unfold diagsOf at hd
    simp only [List.mem_append, memIfSingletonP] at hd
    rcases hd with (((⟨-, rfl⟩ | ⟨-, rfl⟩) | ⟨-, rfl⟩) | ⟨-, rfl⟩) | ⟨-, rfl⟩
    · exact DiagKind.noConfusion hk
    · exact DiagKind.noConfusion hk
    · exact DiagKind.noConfusion hk
    · exact ⟨rfl, rfl⟩
    · exact DiagKind.noConfusion hk

theorem c9_amended_witness :
    run wdf9 = Except.ok (reportOf wdf9) ∧
    (⟨DiagKind.NhsInvalid, some (nhsInvalidCount wdf9), none⟩ : Diag)
      ∈ (reportOf wdf9).diags :=
  ⟨(c9_amended wdf9 rfl (by decide)).1, (c9_amended wdf9 rfl (by decide)).2.1⟩

/-- Claim C7, counterexample: on the cell "nan\tx" the claim's normalization
(token before the first whitespace character) yields the absent marker, but
the code splits only on the space character U+0020, keeps "nan\tx" as a
non-absent value, and therefore does not collect the row in EmailBlanked. -/
theorem c7_counterexample :
    emailNorm (some "nan\tx") = some "nan\tx" ∧
    specEmailValue (some "nan\tx") = none ∧
    run wdfc7 = Except.ok (reportOf wdfc7) ∧
    (reportOf wdfc7).diags.filter
      (fun d => decide (d.kind = DiagKind.EmailBlanked)) = [] := by
  refine ⟨by decide, by decide, rfl, by decide⟩

/-- Claim C7 as amended: the email step trims the cell's text form, takes the
token before the first space character (U+0020, not arbitrary whitespace),
treats "", "nan", "NaN" and "None" as absent, and the EmailBlanked diagnostic
carries exactly the indices of the rows whose normalized email value is
absent, and is emitted exactly when that set is non-empty. -/
theorem c7_amended :
    (∀ c : Cell, emailNorm c = amendedEmail c) ∧
    (∀ df : DF, (emailBlankMask df).any id = true →
      (⟨DiagKind.EmailBlanked, none, some (trueIdxs (emailBlankMask df))⟩ : Diag)
        ∈ diagsOf df) ∧
    (∀ df : DF, (emailBlankMask df).any id = false →
      ∀ d ∈ diagsOf df, d.kind ≠ DiagKind.EmailBlanked) ∧
    (∀ df : DF, ∀ i : Nat, i ∈ trueIdxs (emailBlankMask df) ↔
      (i < (emailBlankMask df).length ∧
        (colVals (normTable df) "Email address").getD i (some "") = none)) := by
  refine ⟨?_, ?_, ?_, ?_⟩
  · intro c
    unfold emailNorm amendedEmail extract_email
    by_cases hsp : (pyStrip (pyStr c)).data.contains ' ' = true
    · have hsp2 : ' ' ∈ (pyStrip (pyStr c)).data := by simpa using hsp
      simp [hsp2]
    · simp only [hsp, if_false, Bool.false_eq_true]
      have hall : ∀ ch ∈ (pyStrip (pyStr c)).data, (!(ch == ' ')) = true := by
        intro ch hch
        by_contra hc
        have hsp2 : ch = ' ' := by
          simpa using hc
        subst hsp2
        exact hsp (containsOfMem _ _ hch)
      rw [takeWhileAll _ _ hall]
  · intro df hany
    unfold diagsOf
    simp only [List.mem_append, memIfSingletonP]
    exact Or.inl (Or.inl (Or.inr ⟨hany, trivial⟩))
  · intro df hany d hd hk
    unfold diagsOf at hd
    simp only [List.mem_append, memIfSingletonP] at hd
    rcases hd with (((⟨-, rfl⟩ | ⟨-, rfl⟩) | ⟨ha, rfl⟩) | ⟨-, rfl⟩) | ⟨-, rfl⟩
    · exact DiagKind.noConfusion hk
    · exact DiagKind.noConfusion hk
    · rw [hany] at ha
      exact Bool.noConfusion ha
    · exact DiagKind.noConfusion hk
    · exact DiagKind.noConfusion hk
  · intro df i
    have hlen : (emailBlankMask df).length
        = (colVals (normTable df) "Email address").length := by
      simp [emailBlankMask]
    constructor
    · intro hi
      simp only [trueIdxs, List.mem_filter, List.mem_range] at hi
      obtain ⟨hlt, hval⟩ := hi
      refine ⟨hlt, ?_⟩
      have hm := getDMapIsNone (colVals (normTable df) "Email address") i
        (by rw [← hlen]; exact hlt)
      rw [emailBlankMask] at hval
      rw [hm] at hval
      exact Option.isNone_iff_eq_none.mp hval
    · rintro ⟨hlt, hval⟩
      simp only [trueIdxs, List.mem_filter, List.mem_range]
      refine ⟨hlt, ?_⟩
      have hm := getDMapIsNone (colVals (normTable df) "Email address") i
        (by rw [← hlen]; exact hlt)
      rw [emailBlankMask, hm, hval]
      rfl

theorem c7_amended_witness :
    emailNorm (some "a@b.com extra") = amendedEmail (some "a@b.com extra") ∧
    (emailBlankMask wdf7).any id = true ∧
    (⟨DiagKind.EmailBlanked, none, some (trueIdxs (emailBlankMask wdf7))⟩ : Diag)
      ∈ diagsOf wdf7 :=
  ⟨c7_amended.1 (some "a@b.com extra"), by decide, c7_amended.2.1 wdf7 (by decide)⟩

theorem cellGetSetColSelf (cols : List String) (name : String) (i : Nat)
    (hi : colIdx cols name = some i) (f : Cell → Cell) (hf : f none = none)
    (r : List Cell) :
    cellGet cols (setColRow i f r) name = f (cellGet cols r name) :=
  cellGetSetSelf cols name i hi r f hf

theorem cellGetSetColOther (cols : List String) (name other : String)
    (hne : name ≠ other) (i : Nat) (hi : colIdx cols other = some i)
    (f : Cell → Cell) (r : List Cell) :
    cellGet cols (setColRow i f r) name = cellGet cols r name :=
  cellGetSetOther cols name other hne i hi r (f (r.getD i none))

theorem mapColEq (df : DF) (name : String) (f : Cell → Cell) (i : Nat)
    (hi : colIdx df.cols name = some i) :
    mapCol df name f = ⟨df.cols, df.rows.map (setColRow i f)⟩ := by
  unfold mapCol
  simp only [hi]
  rfl

/-- Claim C10: every row retained in the cleaned output is an input row with
only the "Preferred telephone number" and "Email address" cells rewritten
(through `clean_mobile` and the email normalization); its "NHS number",
"Date of birth" and "First name" cells are exactly the input row's values. -/
theorem c10_frame (df : DF) (h : schemaOk df = true) :
    run df = Except.ok (reportOf df) ∧
    ∃ sub, List.Sublist sub df.rows ∧
      (reportOf df).cleaned.rows = sub.map (fun r =>
        [cellGet df.cols r "NHS number",
         clean_mobile (cellGet df.cols r "Preferred telephone number"),
         cellGet df.cols r "Date of birth",
         cellGet df.cols r "First name",
         emailNorm (cellGet df.cols r "Email address")]) := by
  refine ⟨by simp [run, h], ?_⟩
  have hnil : missingOf df = [] := by
    simpa [schemaOk, List.isEmpty_iff] using h
  have hall : ∀ c ∈ required_cols, df.cols.contains c = true := by
    intro c hc
    cases hb : df.cols.contains c with
    | true => rfl
    | false =>
        exfalso
        have hnm : c ∉ df.cols := by
          intro hm
          rw [containsOfMem df.cols c hm] at hb
          exact Bool.noConfusion hb
        have hmem : c ∈ missingOf df := by
          simp [missingOf, List.mem_filter, hc, hnm]
        rw [hnil] at hmem
        exact (List.not_mem_nil c) hmem
  obtain ⟨im, him⟩ := containsColIdx df.cols "Preferred telephone number"
    (hall _ (by simp [required_cols]))
  obtain ⟨ie, hie⟩ := containsColIdx df.cols "Email address"
    (hall _ (by simp [required_cols]))
  have h2 : normTable df
      = DF.mk df.cols
          ((df.rows.map (setColRow im clean_mobile)).map (setColRow ie emailNorm)) := by
    have h1 := mapColEq df "Preferred telephone number" clean_mobile im him
    have hie2 : colIdx (mobileStage df).cols "Email address" = some ie := by
      rw [mobileStage, mapColCols]
      exact hie
    have h1e := mapColEq (mobileStage df) "Email address" emailNorm ie hie2
    unfold normTable emailStage
    rw [h1e, mobileStage, h1]
  have hNc : (afterNhs df).cols = df.cols := normTableCols df
  have hBc : (afterBoth df).cols = df.cols := normTableCols df
  have hN : (afterNhs df).rows
      = (((df.rows.map (setColRow im clean_mobile)).map (setColRow ie emailNorm)).filter
          (fun r => nhsValidRow df.cols r)) := by
    show ((normTable df).rows).filter (fun r => nhsValidRow (normTable df).cols r) = _
    rw [h2]
  have hB : (afterBoth df).rows
      = ((((df.rows.map (setColRow im clean_mobile)).map (setColRow ie emailNorm)).filter
            (fun r => nhsValidRow df.cols r)).filter
          (fun r => !(bothMissingRow df.cols r))) := by
    show ((afterNhs df).rows).filter (fun r => !(bothMissingRow (afterNhs df).cols r)) = _
    rw [hN, hNc]
  have hpoint : ∀ r : List Cell,
      required_cols.map
        (fun n => cellGet df.cols (setColRow ie emailNorm (setColRow im clean_mobile r)) n)
      = [cellGet df.cols r "NHS number",
         clean_mobile (cellGet df.cols r "Preferred telephone number"),
         cellGet df.cols r "Date of birth",
         cellGet df.cols r "First name",
         emailNorm (cellGet df.cols r "Email address")] := by
    intro r
    have e1 : cellGet df.cols (setColRow ie emailNorm (setColRow im clean_mobile r))
        "NHS number" = cellGet df.cols r "NHS number" := by
      rw [cellGetSetColOther df.cols "NHS number" "Email address" (by decide) ie hie,
        cellGetSetColOther df.cols "NHS number" "Preferred telephone number" (by decide)
          im him]
    have e2 : cellGet df.cols (setColRow ie emailNorm (setColRow im clean_mobile r))
        "Preferred telephone number"
        = clean_mobile (cellGet df.cols r "Preferred telephone number") := by
      rw [cellGetSetColOther df.cols "Preferred telephone number" "Email address"
        (by decide) ie hie]
      exact cellGetSetColSelf df.cols "Preferred telephone number" im him clean_mobile rfl r
    have e3 : cellGet df.cols (setColRow ie emailNorm (setColRow im clean_mobile r))
        "Date of birth" = cellGet df.cols r "Date of birth" := by
      rw [cellGetSetColOther df.cols "Date of birth" "Email address" (by decide) ie hie,
        cellGetSetColOther df.cols "Date of birth" "Preferred telephone number" (by decide)
          im him]
    have e4 : cellGet df.cols (setColRow ie emailNorm (setColRow im clean_mobile r))
        "First name" = cellGet df.cols r "First name" := by
      rw [cellGetSetColOther df.cols "First name" "Email address" (by decide) ie hie,
        cellGetSetColOther df.cols "First name" "Preferred telephone number" (by decide)
          im him]
    have e5 : cellGet df.cols (setColRow ie emailNorm (setColRow im clean_mobile r))
        "Email address" = emailNorm (cellGet df.cols r "Email address") := by
      have hstep := cellGetSetColSelf df.cols "Email address" ie hie emailNorm (by decide)
        (setColRow im clean_mobile r)
      rw [hstep,
        cellGetSetColOther df.cols "Email address" "Preferred telephone number" (by decide)
          im him]
    simp only [required_cols, List.map_cons, List.map_nil]
    rw [e1, e2, e3, e4, e5]
  refine ⟨df.rows.filter (fun r =>
      nhsValidRow df.cols (setColRow ie emailNorm (setColRow im clean_mobile r)) &&
      !(bothMissingRow df.cols (setColRow ie emailNorm (setColRow im clean_mobile r)))),
    List.filter_sublist _, ?_⟩
  show ((afterBoth df).rows).map
      (fun r' => required_cols.map (fun n => cellGet (afterBoth df).cols r' n)) = _
  rw [hBc, hB, List.map_map, filterFilter, mapFilterComm, List.map_map]
  simp only [Function.comp]
  exact congrArg
    (fun f => List.map f (df.rows.filter (fun r =>
      nhsValidRow df.cols (setColRow ie emailNorm (setColRow im clean_mobile r)) &&
      !(bothMissingRow df.cols (setColRow ie emailNorm (setColRow im clean_mobile r))))))
    (funext hpoint)

theorem c10_frame_witness : run wdf10 = Except.ok (reportOf wdf10) :=
  (c10_frame wdf10 rfl).1
